import Mathlib

/-!
Shallow embedding of `src/app.py`, a FastAPI career-goal CRUD service.

The database table `career_goals` is modelled as a `List CareerGoal` in
storage order; SQLAlchemy's `query(...).filter(CareerGoal.id == goal_id).first()`
becomes `List.find?` on the id, row mutation plus commit becomes replacing the
found row, and `db.delete` removes it.  Python `float` arithmetic on
`progress` (a single division and multiplication) is modelled exactly by `ℚ`.
Python's `ZeroDivisionError` (reachable in the PATCH handler when
`estimated_days = 0`) is modelled as an explicit outcome; a raised exception
aborts the request before `db.commit()`, so the store is unchanged in every
error outcome.  The create route's `response_model` serialization is modelled
explicitly (`create_response`): pydantic's `List[str]` validator rejects the
row's str-valued milestones, so POST `/goals/` answers 500 after the row was
already committed.
-/

/-- Rows of the `career_goals` table (class `CareerGoal` in `app.py`):
`milestones` is stored as a single comma-joined string. -/
structure CareerGoal where
  id : Int
  title : String
  description : String
  milestones : String
  progress : ℚ
  estimated_days : Int
  elapsed_days : Int
deriving DecidableEq, Repr

/-- Request body of POST `/goals/` and PUT `/goals/{id}/` (pydantic model
`CareerGoalCreate`): milestones arrive as a list of strings, `progress`
defaults to `0.0` at the HTTP layer. -/
structure CareerGoalCreate where
  title : String
  description : String
  milestones : List String
  progress : ℚ
  estimated_days : Int
deriving DecidableEq, Repr

/-- Wire representation of a goal (pydantic model `CareerGoalResponse`):
milestones decoded back into a list. -/
structure CareerGoalResponse where
  id : Int
  title : String
  description : String
  milestones : List String
  progress : ℚ
  estimated_days : Int
  elapsed_days : Int
deriving DecidableEq, Repr

/-- Python `sep.join(xs)` on character lists: concatenate the pieces with the
separator between consecutive pieces. -/
def joinChars (sep : Char) : List (List Char) → List Char
  | [] => []
  | [l] => l
  | l :: l2 :: ls => l ++ sep :: joinChars sep (l2 :: ls)

/-- Python `s.split(sep)` (with an explicit one-character separator) on
character lists: always returns at least one piece; `split` of the empty
string is `[[]]`. -/
def splitChars (sep : Char) : List Char → List (List Char)
  | [] => [[]]
  | c :: cs =>
      match splitChars sep cs with
      | [] => [[]]
      | h :: t => if c = sep then [] :: h :: t else (c :: h) :: t

/-- Python `",".join(goal.milestones)` (line 65 / line 160 of `app.py`). -/
def encodeMilestones (ms : List String) : String :=
  String.mk (joinChars ',' (ms.map String.data))

/-- Python `goal.milestones.split(",") if goal.milestones else []`
(lines 84, 124, 144, 171 of `app.py`): empty stored string decodes to the
empty list, otherwise split on commas. -/
def decodeMilestones (s : String) : List String :=
  if s = "" then [] else (splitChars ',' s.data).map String.mk

/-- Conversion from an ORM row to the wire shape with milestones decoded, as
built explicitly in `get_goals` (lines 80-88) and in the response dicts of the
increment and update handlers.  The create route does NOT perform this
decoding: it hands the raw row to response validation, which rejects the
str-valued milestones — see `create_response`. -/
def CareerGoalResponse.ofGoal (g : CareerGoal) : CareerGoalResponse :=
  { id := g.id
    title := g.title
    description := g.description
    milestones := decodeMilestones g.milestones
    progress := g.progress
    estimated_days := g.estimated_days
    elapsed_days := g.elapsed_days }

/-- `fastapi.HTTPException(status_code, detail)`. -/
structure HTTPException where
  status_code : Nat
  detail : String
deriving DecidableEq, Repr

/-- `db.query(CareerGoal).filter(CareerGoal.id == goal_id).first()`: the first
row in storage order with this id. -/
def findGoal (goal_id : Int) (db : List CareerGoal) : Option CareerGoal :=
  db.find? (fun g => g.id == goal_id)

/-- Mutating the found row and committing: replace the first row carrying
this primary key. -/
def storeUpdate (goal_id : Int) (g' : CareerGoal) : List CareerGoal → List CareerGoal
  | [] => []
  | x :: xs => if x.id == goal_id then g' :: xs else x :: storeUpdate goal_id g' xs

/-- `db.delete(db_goal); db.commit()`: remove the first row carrying this
primary key. -/
def storeDelete (goal_id : Int) : List CareerGoal → List CareerGoal
  | [] => []
  | x :: xs => if x.id == goal_id then xs else x :: storeDelete goal_id xs

/-- SQLite's fresh primary key for an INTEGER PRIMARY KEY column: one larger
than the largest id in use (1 on an empty table). -/
def nextId (db : List CareerGoal) : Int :=
  (db.map CareerGoal.id).foldr max 0 + 1

/-- POST `/goals/` (`create_goal`, lines 60-73): build the row with a fresh
id, comma-joined milestones, caller-supplied progress and `elapsed_days = 0`,
append it to the table (committed at line 71), and return the row to the HTTP
layer, which then attempts response validation (`create_response`). -/
def create_goal (goal : CareerGoalCreate) (db : List CareerGoal) :
    CareerGoal × List CareerGoal :=
  let db_goal : CareerGoal :=
    { id := nextId db
      title := goal.title
      description := goal.description
      milestones := encodeMilestones goal.milestones
      progress := goal.progress
      estimated_days := goal.estimated_days
      elapsed_days := 0 }
  (db_goal, db ++ [db_goal])

/-- A Python attribute value as pydantic sees it when validating the
`milestones` field of `CareerGoalResponse`: either an actual list of strings
or a plain `str`. -/
inductive PyField where
  | pyStr (s : String)
  | pyList (xs : List String)
deriving DecidableEq, Repr

/-- Pydantic's validator for a `List[str]` field: it accepts a genuine list
and rejects a plain string — `str` is deliberately excluded from the
sequence-like values, and no splitting or coercion is attempted. -/
def validateStrList : PyField → Option (List String)
  | .pyList xs => some xs
  | .pyStr _ => none

/-- The create route's response serialization: `response_model =
CareerGoalResponse` validates the ORM row returned at line 73 field by field.
The row's `milestones` attribute is the comma-joined `str`, so the `List[str]`
validation fails and FastAPI answers 500 Internal Server Error instead of a
Goal body (the row itself was already committed at line 71). -/
def create_response (db_goal : CareerGoal) : Except HTTPException CareerGoalResponse :=
  match validateStrList (.pyStr db_goal.milestones) with
  | some ms =>
      .ok { id := db_goal.id
            title := db_goal.title
            description := db_goal.description
            milestones := ms
            progress := db_goal.progress
            estimated_days := db_goal.estimated_days
            elapsed_days := db_goal.elapsed_days }
  | none => .error { status_code := 500, detail := "Internal Server Error" }

/-- GET `/goals/` (`get_goals`, lines 76-90): every row, in storage order,
with milestones decoded. -/
def get_goals (db : List CareerGoal) : List CareerGoalResponse :=
  db.map CareerGoalResponse.ofGoal

/-- DELETE `/goals/{goal_id}/` (`delete_goal`, lines 93-100): 404 if the id
is absent, otherwise remove the row and acknowledge.  The second component is
the post-state of the table (unchanged when the handler raises). -/
def delete_goal (goal_id : Int) (db : List CareerGoal) :
    Except HTTPException String × List CareerGoal :=
  match findGoal goal_id db with
  | none => (.error { status_code := 404, detail := "Goal not found" }, db)
  | some _ => (.ok "Goal deleted successfully", storeDelete goal_id db)

/-- PUT `/goals/{goal_id}/increment/` (`increment_progress`, lines 102-130),
the strict advance: 404 if absent; if `elapsed_days < estimated_days`,
increment `elapsed_days`, recompute `progress = elapsed/estimated*100` with
the new `elapsed_days`, clamp `progress` to the literal 100 when
`elapsed_days >= estimated_days`, commit and return the updated row;
otherwise 400 "Goal already completed" with no mutation. -/
def increment_progress (goal_id : Int) (db : List CareerGoal) :
    Except HTTPException CareerGoal × List CareerGoal :=
  match findGoal goal_id db with
  | none => (.error { status_code := 404, detail := "Goal not found" }, db)
  | some db_goal =>
      if db_goal.elapsed_days < db_goal.estimated_days then
        let g1 := { db_goal with elapsed_days := db_goal.elapsed_days + 1 }
        let g2 := { g1 with
          progress := (g1.elapsed_days : ℚ) / (g1.estimated_days : ℚ) * 100 }
        let g3 :=
          if g2.estimated_days ≤ g2.elapsed_days then { g2 with progress := 100 } else g2
        (.ok g3, storeUpdate goal_id g3 db)
      else
        (.error { status_code := 400, detail := "Goal already completed" }, db)

/-- Outcomes of the PATCH increment handler: a 200 with the updated goal, a
200 carrying the body `{"message": "Goal not found"}` (no HTTP error status),
or an uncaught Python `ZeroDivisionError`. -/
inductive PatchOutcome where
  | progressUpdated (goal : CareerGoal)
  | goalNotFound
  | zeroDivisionError
deriving DecidableEq, Repr

/-- PATCH `/goals/{goal_id}/increment/` (`increment_goal_progress`, lines
132-149), the lenient advance: if the id is present, unconditionally
increment `elapsed_days` and recompute `progress = elapsed/estimated*100`
(raising `ZeroDivisionError` when `estimated_days = 0`, which aborts before
the commit); if absent, return a normal response carrying a not-found
message.  The second component is the post-state of the table. -/
def increment_goal_progress (goal_id : Int) (db : List CareerGoal) :
    PatchOutcome × List CareerGoal :=
  match findGoal goal_id db with
  | some db_goal =>
      if db_goal.estimated_days = 0 then (.zeroDivisionError, db)
      else
        let g1 := { db_goal with
          elapsed_days := db_goal.elapsed_days + 1
          progress := ((db_goal.elapsed_days + 1 : Int) : ℚ) /
            (db_goal.estimated_days : ℚ) * 100 }
        (.progressUpdated g1, storeUpdate goal_id g1 db)
  | none => (.goalNotFound, db)

/-- PUT `/goals/{goal_id}/` (`update_goal`, lines 151-175), full replace:
404 if absent; otherwise overwrite title, description, milestones (re-joined)
and estimated_days, reset `elapsed_days` to 0, leave `id` and `progress`
untouched, commit and return the updated row. -/
def update_goal (goal_id : Int) (goal : CareerGoalCreate) (db : List CareerGoal) :
    Except HTTPException CareerGoal × List CareerGoal :=
  match findGoal goal_id db with
  | none => (.error { status_code := 404, detail := "Goal not found" }, db)
  | some db_goal =>
      let g1 := { db_goal with
        title := goal.title
        description := goal.description
        milestones := encodeMilestones goal.milestones
        estimated_days := goal.estimated_days
        elapsed_days := 0 }
      (.ok g1, storeUpdate goal_id g1 db)

/-- Sample stored goal mid-progress (3 of 10 days done), used to exercise the
strict advance. -/
def gA : CareerGoal :=
  { id := 1, title := "Learn Go", description := "d", milestones := "Syntax,Concurrency",
    progress := 30, estimated_days := 10, elapsed_days := 3 }

/-- Sample completed goal (`elapsed_days = estimated_days`). -/
def gB : CareerGoal :=
  { id := 2, title := "t2", description := "d2", milestones := "a,b",
    progress := 100, estimated_days := 5, elapsed_days := 5 }

/-- Sample goal with `estimated_days = 0`, the division-by-zero hazard. -/
def gC : CareerGoal :=
  { id := 3, title := "t3", description := "d3", milestones := "",
    progress := 0, estimated_days := 0, elapsed_days := 0 }

/-- Sample goal one day short of completion. -/
def gD : CareerGoal :=
  { id := 4, title := "t4", description := "d4", milestones := "m",
    progress := 6 / 7 * 100, estimated_days := 7, elapsed_days := 6 }

/-- Sample goal with a negative `estimated_days` (nothing validates against
this at creation). -/
def gE : CareerGoal :=
  { id := 5, title := "t5", description := "d5", milestones := "",
    progress := 0, estimated_days := -1, elapsed_days := 0 }

/-- Sample replacement request body. -/
def reqR : CareerGoalCreate :=
  { title := "new title", description := "new d", milestones := ["x", "y"],
    progress := 55, estimated_days := 20 }

/-- Sample creation request with three comma-free milestone labels. -/
def reqM : CareerGoalCreate :=
  { title := "t", description := "d", milestones := ["a", "b", "c"],
    progress := 0, estimated_days := 5 }

/-- Sample creation request whose milestone list is the single empty label. -/
def reqEmpty : CareerGoalCreate :=
  { title := "t", description := "d", milestones := [""],
    progress := 0, estimated_days := 5 }

/-- Every stored goal has a nonnegative day counter: the invariant holding in
every reachable store (`elapsed_days` starts at 0 and is never decremented),
preserved by all five handlers below. -/
def elapsedNonneg (db : List CareerGoal) : Prop :=
  ∀ g ∈ db, 0 ≤ g.elapsed_days

theorem mk_data (s : String) : String.mk s.data = s := rfl

theorem map_mk_data (l : List String) : (l.map String.data).map String.mk = l := by
  induction l with
  | nil => rfl
  | cons s tl ih => simp [ih, mk_data]

theorem splitChars_ne_nil (sep : Char) (l : List Char) : splitChars sep l ≠ [] := by
  cases l with
  | nil => simp [splitChars]
  | cons c cs =>
    simp only [splitChars]
    cases hs : splitChars sep cs with
    | nil => simp
    | cons h t => by_cases hc : c = sep <;> simp [hc]

theorem splitChars_of_not_mem (sep : Char) (l : List Char) (h : sep ∉ l) :
    splitChars sep l = [l] := by
  induction l with
  | nil => rfl
  | cons c cs ih =>
    have hc : c ≠ sep := fun hcc => h (hcc ▸ List.mem_cons_self c cs)
    have hcs : sep ∉ cs := fun hm => h (List.mem_cons_of_mem c hm)
    simp [splitChars, ih hcs, hc]

theorem splitChars_append (sep : Char) (l r : List Char) (h : sep ∉ l) :
    splitChars sep (l ++ sep :: r) = l :: splitChars sep r := by
  induction l with
  | nil =>
    simp only [List.nil_append, splitChars]
    cases hs : splitChars sep r with
    | nil => exact absurd hs (splitChars_ne_nil sep r)
    | cons h t => simp
  | cons c cs ih =>
    have hc : c ≠ sep := fun hcc => h (hcc ▸ List.mem_cons_self c cs)
    have hcs : sep ∉ cs := fun hm => h (List.mem_cons_of_mem c hm)
    simp only [List.cons_append, splitChars, List.append_eq, ih hcs, hc, if_false]

theorem splitChars_joinChars (sep : Char) (ls : List (List Char))
    (h : ∀ l ∈ ls, sep ∉ l) (hne : ls ≠ []) :
    splitChars sep (joinChars sep ls) = ls := by
  induction ls with
  | nil => exact absurd rfl hne
  | cons l ls ih =>
    cases ls with
    | nil =>
      show splitChars sep l = [l]
      exact splitChars_of_not_mem sep l (h l (by simp))
    | cons l2 ls2 =>
      have h1 : sep ∉ l := h l (by simp)
      have h2 : ∀ x ∈ l2 :: ls2, sep ∉ x := fun x hx => h x (List.mem_cons_of_mem l hx)
      have hne2 : (l2 :: ls2 : List (List Char)) ≠ [] := by simp
      show splitChars sep (l ++ sep :: joinChars sep (l2 :: ls2)) = l :: l2 :: ls2
      rw [splitChars_append sep l _ h1, ih h2 hne2]

theorem joinChars_ne_nil (sep : Char) (ls : List (List Char))
    (h1 : ls ≠ []) (h2 : ls ≠ [[]]) : joinChars sep ls ≠ [] := by
  cases ls with
  | nil => exact absurd rfl h1
  | cons l ls =>
    cases ls with
    | nil =>
      cases l with
      | nil => exact absurd rfl h2
      | cons c cs => simp [joinChars]
    | cons l2 ls2 => simp [joinChars]

theorem decode_encode (ms : List String) (hc : ∀ l ∈ ms, ',' ∉ l.data)
    (hne : ms ≠ [""]) : decodeMilestones (encodeMilestones ms) = ms := by
  by_cases hnil : ms = []
  · subst hnil; rfl
  · have hmapnil : ms.map String.data ≠ [] := by simpa using hnil
    have hmapone : ms.map String.data ≠ [[]] := by
      intro hx
      cases ms with
      | nil => exact hnil rfl
      | cons s tl =>
        cases tl with
        | nil =>
          simp only [List.map_cons, List.map_nil] at hx
          have hs : s.data = [] := by simpa using hx
          have hss : s = "" := by rw [← mk_data s, hs]
          exact hne (by rw [hss])
        | cons t tl2 => simp at hx
    have hjoin : joinChars ',' (ms.map String.data) ≠ [] :=
      joinChars_ne_nil ',' _ hmapnil hmapone
    have henc : encodeMilestones ms ≠ "" := by
      intro hx
      apply hjoin
      have hd := congrArg String.data hx
      simpa [encodeMilestones] using hd
    have hsep : ∀ l ∈ ms.map String.data, ',' ∉ l := by
      intro l hl
      rcases List.mem_map.mp hl with ⟨s, hs, rfl⟩
      exact hc s hs
    unfold decodeMilestones
    rw [if_neg henc]
    have hdata : (encodeMilestones ms).data = joinChars ',' (ms.map String.data) := rfl
    rw [hdata, splitChars_joinChars ',' _ hsep hmapnil, map_mk_data]

theorem findGoal_id (goal_id : Int) (db : List CareerGoal) (g : CareerGoal)
    (h : findGoal goal_id db = some g) : g.id = goal_id := by
  have h2 : List.find? (fun x : CareerGoal => x.id == goal_id) db = some g := h
  simpa using List.find?_some h2

theorem findGoal_storeUpdate (goal_id : Int) (g g' : CareerGoal) (db : List CareerGoal)
    (hfind : findGoal goal_id db = some g) (hg' : g'.id = goal_id) :
    findGoal goal_id (storeUpdate goal_id g' db) = some g' := by
  induction db with
  | nil => simp [findGoal, List.find?] at hfind
  | cons x xs ih =>
    by_cases hx : x.id = goal_id
    · simp [findGoal, storeUpdate, List.find?, hx, hg']
    · have hpx : (x.id == goal_id) = false := by simp [hx]
      have hfind2 : findGoal goal_id xs = some g := by
        simpa [findGoal, List.find?, hpx] using hfind
      simpa [findGoal, storeUpdate, List.find?, hpx] using ih hfind2

theorem le_foldr_max (l : List Int) (x : Int) (hx : x ∈ l) : x ≤ l.foldr max 0 := by
  induction l with
  | nil => cases hx
  | cons y ys ih =>
    rcases List.mem_cons.mp hx with h | h
    · subst h; exact le_max_left x (ys.foldr max 0)
    · exact le_trans (ih h) (le_max_right y (ys.foldr max 0))

theorem nextId_fresh (db : List CareerGoal) (x : CareerGoal) (hx : x ∈ db) :
    x.id ≠ nextId db := by
  have hle : x.id ≤ (db.map CareerGoal.id).foldr max 0 :=
    le_foldr_max _ x.id (List.mem_map_of_mem CareerGoal.id hx)
  unfold nextId
  omega

theorem storeDelete_id_not_mem (goal_id : Int) (db : List CareerGoal)
    (hnd : (db.map CareerGoal.id).Nodup) :
    ∀ x ∈ storeDelete goal_id db, x.id ≠ goal_id := by
  induction db with
  | nil => intro x hx; cases hx
  | cons y ys ih =>
    simp only [List.map_cons, List.nodup_cons] at hnd
    by_cases hy : y.id = goal_id
    · intro x hx hxid
      have hx2 : x ∈ ys := by simpa [storeDelete, hy] using hx
      have hmem : x.id ∈ ys.map CareerGoal.id := List.mem_map_of_mem CareerGoal.id hx2
      rw [hxid, ← hy] at hmem
      exact hnd.1 hmem
    · intro x hx hxid
      have hx2 : x = y ∨ x ∈ storeDelete goal_id ys := by
        simpa [storeDelete, hy] using hx
      rcases hx2 with rfl | hx3
      · exact hy hxid
      · exact ih hnd.2 x hx3 hxid

theorem mem_storeUpdate (goal_id : Int) (g' x : CareerGoal) (db : List CareerGoal)
    (hx : x ∈ storeUpdate goal_id g' db) : x = g' ∨ x ∈ db := by
  induction db with
  | nil => cases hx
  | cons y ys ih =>
    by_cases hy : y.id = goal_id
    · rcases (by simpa [storeUpdate, hy] using hx : x = g' ∨ x ∈ ys) with h | h
      · exact Or.inl h
      · exact Or.inr (List.mem_cons_of_mem y h)
    · rcases (by simpa [storeUpdate, hy] using hx : x = y ∨ x ∈ storeUpdate goal_id g' ys)
        with h | h
      · exact Or.inr (h ▸ List.mem_cons_self y ys)
      · rcases ih h with h2 | h2
        · exact Or.inl h2
        · exact Or.inr (List.mem_cons_of_mem y h2)

theorem mem_storeDelete (goal_id : Int) (x : CareerGoal) (db : List CareerGoal)
    (hx : x ∈ storeDelete goal_id db) : x ∈ db := by
  induction db with
  | nil => cases hx
  | cons y ys ih =>
    by_cases hy : y.id = goal_id
    · have h2 : x ∈ ys := by simpa [storeDelete, hy] using hx
      exact List.mem_cons_of_mem y h2
    · rcases (by simpa [storeDelete, hy] using hx : x = y ∨ x ∈ storeDelete goal_id ys)
        with h | h
      · exact h ▸ List.mem_cons_self y ys
      · exact List.mem_cons_of_mem y (ih h)

theorem increment_progress_not_lt (goal_id : Int) (db : List CareerGoal) (g : CareerGoal)
    (hfind : findGoal goal_id db = some g)
    (hge : ¬ g.elapsed_days < g.estimated_days) :
    increment_progress goal_id db =
      (.error { status_code := 400, detail := "Goal already completed" }, db) := by
  simp only [increment_progress, hfind, if_neg hge]

theorem elapsedNonneg_create (req : CareerGoalCreate) (db : List CareerGoal)
    (h : elapsedNonneg db) : elapsedNonneg (create_goal req db).2 := by
  intro x hx
  rcases (by simpa [create_goal] using hx : x ∈ db ∨ x = (create_goal req db).1) with h2 | h2
  · exact h x h2
  · rw [h2]; exact le_refl 0

theorem elapsedNonneg_delete (goal_id : Int) (db : List CareerGoal)
    (h : elapsedNonneg db) : elapsedNonneg (delete_goal goal_id db).2 := by
  intro x hx
  cases hf : findGoal goal_id db with
  | none =>
    rw [delete_goal, hf] at hx
    exact h x hx
  | some g =>
    rw [delete_goal, hf] at hx
    exact h x (mem_storeDelete goal_id x db hx)

theorem elapsedNonneg_advance (goal_id : Int) (db : List CareerGoal)
    (h : elapsedNonneg db) : elapsedNonneg (increment_progress goal_id db).2 := by
  intro x hx
  cases hf : findGoal goal_id db with
  | none =>
    rw [increment_progress, hf] at hx
    exact h x hx
  | some g =>
    have hg : 0 ≤ g.elapsed_days := by
      have h2 : List.find? (fun x : CareerGoal => x.id == goal_id) db = some g := hf
      exact h g (List.mem_of_find?_eq_some h2)
    by_cases hlt : g.elapsed_days < g.estimated_days
    · by_cases hcl : g.estimated_days ≤ g.elapsed_days + 1
      · rw [increment_progress, hf] at hx
        simp only [if_pos hlt, if_pos hcl] at hx
        rcases mem_storeUpdate goal_id _ x db hx with h2 | h2
        · rw [h2]; show 0 ≤ g.elapsed_days + 1; omega
        · exact h x h2
      · rw [increment_progress, hf] at hx
        simp only [if_pos hlt, if_neg hcl] at hx
        rcases mem_storeUpdate goal_id _ x db hx with h2 | h2
        · rw [h2]; show 0 ≤ g.elapsed_days + 1; omega
        · exact h x h2
    · rw [increment_progress, hf] at hx
      simp only [if_neg hlt] at hx
      exact h x hx

theorem elapsedNonneg_advanceLenient (goal_id : Int) (db : List CareerGoal)
    (h : elapsedNonneg db) : elapsedNonneg (increment_goal_progress goal_id db).2 := by
  intro x hx
  cases hf : findGoal goal_id db with
  | none =>
    rw [increment_goal_progress, hf] at hx
    exact h x hx
  | some g =>
    have hg : 0 ≤ g.elapsed_days := by
      have h2 : List.find? (fun x : CareerGoal => x.id == goal_id) db = some g := hf
      exact h g (List.mem_of_find?_eq_some h2)
    by_cases hz : g.estimated_days = 0
    · rw [increment_goal_progress, hf] at hx
      simp only [if_pos hz] at hx
      exact h x hx
    · rw [increment_goal_progress, hf] at hx
      simp only [if_neg hz] at hx
      rcases mem_storeUpdate goal_id _ x db hx with h2 | h2
      · rw [h2]; show 0 ≤ g.elapsed_days + 1; omega
      · exact h x h2

theorem elapsedNonneg_replace (goal_id : Int) (req : CareerGoalCreate) (db : List CareerGoal)
    (h : elapsedNonneg db) : elapsedNonneg (update_goal goal_id req db).2 := by
  intro x hx
  cases hf : findGoal goal_id db with
  | none =>
    rw [update_goal, hf] at hx
    exact h x hx
  | some g =>
    rw [update_goal, hf] at hx
    rcases mem_storeUpdate goal_id _ x db hx with h2 | h2
    · rw [h2]
    · exact h x h2

/-- C1: for a stored goal (so `0 ≤ elapsed_days`) with
`elapsed_days < estimated_days`, the strict PUT increment succeeds, increments
`elapsed_days` by exactly one, sets `progress` to the post-increment
`elapsed_days / estimated_days * 100` (the clamp branch writes the literal
100, which coincides with the formula there), leaves every other field of the
goal unchanged, persists the updated row, and returns it. -/
theorem advanceOnce_increments (goal_id : Int) (db : List CareerGoal) (g : CareerGoal)
    (hfind : findGoal goal_id db = some g)
    (hnn : 0 ≤ g.elapsed_days)
    (hlt : g.elapsed_days < g.estimated_days) :
    ∃ g', increment_progress goal_id db = (.ok g', storeUpdate goal_id g' db) ∧
      g'.elapsed_days = g.elapsed_days + 1 ∧
      g'.progress = ((g.elapsed_days + 1 : Int) : ℚ) / (g.estimated_days : ℚ) * 100 ∧
      g'.id = g.id ∧ g'.title = g.title ∧ g'.description = g.description ∧
      g'.milestones = g.milestones ∧ g'.estimated_days = g.estimated_days ∧
      findGoal goal_id (storeUpdate goal_id g' db) = some g' := by
  have hid := findGoal_id goal_id db g hfind
  by_cases hcl : g.estimated_days ≤ g.elapsed_days + 1
  · have h0 : ((g.elapsed_days + 1 : Int) : ℚ) ≠ 0 := by
      rw [Int.cast_ne_zero]; omega
    have hest : g.estimated_days = g.elapsed_days + 1 := by omega
    have hq : ((g.elapsed_days + 1 : Int) : ℚ) / (g.estimated_days : ℚ) * 100 = 100 := by
      rw [hest, div_self h0, one_mul]
    refine ⟨{ g with elapsed_days := g.elapsed_days + 1, progress := 100 }, ?_,
      rfl, hq.symm, rfl, rfl, rfl, rfl, rfl,
      findGoal_storeUpdate goal_id g _ db hfind hid⟩
    simp only [increment_progress, hfind, if_pos hlt, if_pos hcl]
  · refine ⟨{ g with
        elapsed_days := g.elapsed_days + 1,
        progress := ((g.elapsed_days + 1 : Int) : ℚ) / (g.estimated_days : ℚ) * 100 }, ?_,
      rfl, rfl, rfl, rfl, rfl, rfl, rfl,
      findGoal_storeUpdate goal_id g _ db hfind hid⟩
    simp only [increment_progress, hfind, if_pos hlt, if_neg hcl]

/-- C1 witness: advancing goal `gA` (3 of 10 days) behaves as C1 states. -/
theorem advanceOnce_increments_witness :
    ∃ g', increment_progress 1 [gA] = (.ok g', storeUpdate 1 g' [gA]) ∧
      g'.elapsed_days = gA.elapsed_days + 1 ∧
      g'.progress = ((gA.elapsed_days + 1 : Int) : ℚ) / (gA.estimated_days : ℚ) * 100 ∧
      g'.id = gA.id ∧ g'.title = gA.title ∧ g'.description = gA.description ∧
      g'.milestones = gA.milestones ∧ g'.estimated_days = gA.estimated_days ∧
      findGoal 1 (storeUpdate 1 g' [gA]) = some g' :=
  advanceOnce_increments 1 [gA] gA rfl (by decide) (by decide)

/-- C2: when `elapsed_days ≥ estimated_days`, the strict PUT increment fails
with 400 "Goal already completed" and the whole store is returned unchanged. -/
theorem advanceOnce_alreadyComplete (goal_id : Int) (db : List CareerGoal) (g : CareerGoal)
    (hfind : findGoal goal_id db = some g)
    (hge : g.estimated_days ≤ g.elapsed_days) :
    increment_progress goal_id db =
      (.error { status_code := 400, detail := "Goal already completed" }, db) :=
  increment_progress_not_lt goal_id db g hfind (not_lt.mpr hge)

/-- C2 witness: advancing the completed goal `gB` fails with 400 and leaves
the store as it was. -/
theorem advanceOnce_alreadyComplete_witness :
    increment_progress 2 [gB] =
      (.error { status_code := 400, detail := "Goal already completed" }, [gB]) :=
  advanceOnce_alreadyComplete 2 [gB] gB rfl (by decide)

/-- C3 counterexample: the claim quantifies over milestone lists whose labels
contain no comma, but the singleton list with one empty label — comma-free —
does not round-trip: it is stored as the empty string, and List() decodes the
empty string to the empty list, not to `[""]`. -/
theorem roundtrip_counterexample :
    (∀ l ∈ reqEmpty.milestones, ',' ∉ l.data) ∧
    (get_goals (create_goal reqEmpty []).2).map CareerGoalResponse.milestones = [[]] ∧
    ([[]] : List (List String)) ≠ [[""]] := by
  refine ⟨by decide, by decide, by decide⟩

/-- C3 (amended): for a goal created with milestone labels that contain no
comma and whose list is not the singleton empty label, List() returns that
goal with exactly the supplied labels in the supplied order. -/
theorem roundtrip_milestones (req : CareerGoalCreate) (db : List CareerGoal)
    (hc : ∀ l ∈ req.milestones, ',' ∉ l.data) (hne : req.milestones ≠ [""]) :
    CareerGoalResponse.ofGoal (create_goal req db).1 ∈ get_goals (create_goal req db).2 ∧
    (CareerGoalResponse.ofGoal (create_goal req db).1).milestones = req.milestones := by
  constructor
  · exact List.mem_map_of_mem _ (by simp [create_goal])
  · show decodeMilestones (encodeMilestones req.milestones) = req.milestones
    exact decode_encode req.milestones hc hne

/-- C3 witness: `["a", "b", "c"]` round-trips through create and List(). -/
theorem roundtrip_milestones_witness :
    CareerGoalResponse.ofGoal (create_goal reqM []).1 ∈ get_goals (create_goal reqM []).2 ∧
    (CareerGoalResponse.ofGoal (create_goal reqM []).1).milestones = reqM.milestones :=
  roundtrip_milestones reqM [] (by decide) (by decide)

/-- C4 (code bug): the storage side of Create behaves as the claim says —
the new row gets an id different from every existing goal's id,
`elapsed_days = 0`, the caller-supplied progress, and is appended to the
store — but the declared response is never produced: pydantic's `List[str]`
validator rejects the row's str-valued `milestones` attribute, so every
POST `/goals/` answers 500 Internal Server Error instead of returning the
created Goal. -/
theorem create_goal_bug (req : CareerGoalCreate) (db : List CareerGoal) :
    (∀ x ∈ db, x.id ≠ (create_goal req db).1.id) ∧
    (create_goal req db).1.elapsed_days = 0 ∧
    (create_goal req db).1.progress = req.progress ∧
    (create_goal req db).2 = db ++ [(create_goal req db).1] ∧
    create_response (create_goal req db).1 =
      .error { status_code := 500, detail := "Internal Server Error" } := by
  refine ⟨?_, rfl, rfl, rfl, rfl⟩
  intro x hx
  show x.id ≠ nextId db
  exact nextId_fresh db x hx

/-- C5: Replace on an existing goal overwrites title, description, milestones
(re-joined) and estimated_days with the request values, resets `elapsed_days`
to 0, and leaves the goal's id and its stored progress exactly as they were. -/
theorem replace_overwrites (goal_id : Int) (req : CareerGoalCreate)
    (db : List CareerGoal) (g : CareerGoal)
    (hfind : findGoal goal_id db = some g) :
    ∃ g', update_goal goal_id req db = (.ok g', storeUpdate goal_id g' db) ∧
      g'.title = req.title ∧ g'.description = req.description ∧
      g'.milestones = encodeMilestones req.milestones ∧
      g'.estimated_days = req.estimated_days ∧ g'.elapsed_days = 0 ∧
      g'.id = g.id ∧ g'.progress = g.progress := by
  refine ⟨{ g with
      title := req.title, description := req.description,
      milestones := encodeMilestones req.milestones,
      estimated_days := req.estimated_days, elapsed_days := 0 },
    ?_, rfl, rfl, rfl, rfl, rfl, rfl, rfl⟩
  simp only [update_goal, hfind]

/-- C5 witness: replacing `gA` with `reqR` resets elapsed_days and keeps the
old id and progress. -/
theorem replace_overwrites_witness :
    ∃ g', update_goal 1 reqR [gA] = (.ok g', storeUpdate 1 g' [gA]) ∧
      g'.title = reqR.title ∧ g'.description = reqR.description ∧
      g'.milestones = encodeMilestones reqR.milestones ∧
      g'.estimated_days = reqR.estimated_days ∧ g'.elapsed_days = 0 ∧
      g'.id = gA.id ∧ g'.progress = gA.progress :=
  replace_overwrites 1 reqR [gA] gA rfl

/-- C6: the PATCH increment on an absent id yields the normal 200 outcome
carrying the not-found message (never an HTTP error status) and leaves the
store unchanged. -/
theorem patchIncrement_absent (goal_id : Int) (db : List CareerGoal)
    (hfind : findGoal goal_id db = none) :
    increment_goal_progress goal_id db = (.goalNotFound, db) := by
  simp only [increment_goal_progress, hfind]

/-- C6 witness: PATCH increment of the absent id 99. -/
theorem patchIncrement_absent_witness :
    increment_goal_progress 99 [gA] = (.goalNotFound, [gA]) :=
  patchIncrement_absent 99 [gA] rfl

/-- C7 counterexample: the claim's conclusion "progress exceeds 100" fails for
a goal with nonzero but negative `estimated_days`: advancing `gE`
(`estimated_days = -1`, `elapsed_days = 0 ≥ -1`) succeeds and yields
progress `-100`, which does not exceed 100. -/
theorem patchIncrement_counterexample :
    gE.estimated_days ≠ 0 ∧ gE.estimated_days ≤ gE.elapsed_days ∧
    ∃ g', (increment_goal_progress 5 [gE]).1 = .progressUpdated g' ∧
      g'.progress = -100 ∧ ¬ (100 : ℚ) < g'.progress := by
  refine ⟨by decide, by decide,
    ⟨{ gE with
        elapsed_days := gE.elapsed_days + 1,
        progress := ((gE.elapsed_days + 1 : Int) : ℚ) / (gE.estimated_days : ℚ) * 100 },
      rfl, ?_, ?_⟩⟩
  · show ((gE.elapsed_days + 1 : Int) : ℚ) / (gE.estimated_days : ℚ) * 100 = -100
    norm_num [gE]
  · show ¬ (100 : ℚ) < ((gE.elapsed_days + 1 : Int) : ℚ) / (gE.estimated_days : ℚ) * 100
    norm_num [gE]

/-- C7 (amended): for an existing goal with nonzero `estimated_days`, the
PATCH increment unconditionally increments `elapsed_days` by 1 with no
upper-bound check and sets progress to the post-increment
`elapsed_days / estimated_days * 100`; when `estimated_days` is moreover
positive and `elapsed_days` was already at or past it, the call still
succeeds and the resulting progress exceeds 100. -/
theorem patchIncrement_unchecked (goal_id : Int) (db : List CareerGoal) (g : CareerGoal)
    (hfind : findGoal goal_id db = some g)
    (hnz : g.estimated_days ≠ 0) :
    ∃ g', increment_goal_progress goal_id db = (.progressUpdated g', storeUpdate goal_id g' db) ∧
      g'.elapsed_days = g.elapsed_days + 1 ∧
      g'.progress = ((g.elapsed_days + 1 : Int) : ℚ) / (g.estimated_days : ℚ) * 100 ∧
      (0 < g.estimated_days → g.estimated_days ≤ g.elapsed_days → 100 < g'.progress) := by
  refine ⟨{ g with
      elapsed_days := g.elapsed_days + 1,
      progress := ((g.elapsed_days + 1 : Int) : ℚ) / (g.estimated_days : ℚ) * 100 },
    ?_, rfl, rfl, ?_⟩
  · simp only [increment_goal_progress, hfind, if_neg hnz]
  · intro hpos hge
    have hcast : (g.estimated_days : ℚ) < ((g.elapsed_days + 1 : Int) : ℚ) := by
      exact_mod_cast Int.lt_add_one_iff.mpr hge
    have hq : (1 : ℚ) < ((g.elapsed_days + 1 : Int) : ℚ) / (g.estimated_days : ℚ) :=
      (one_lt_div (by exact_mod_cast hpos)).mpr hcast
    have hmul := mul_lt_mul_of_pos_right hq (show (0 : ℚ) < 100 by norm_num)
    rw [one_mul] at hmul
    exact hmul

/-- C7 witness: PATCH-advancing the already-complete goal `gB` (5 of 5 days)
succeeds and drives progress to 120 > 100. -/
theorem patchIncrement_unchecked_witness :
    ∃ g', increment_goal_progress 2 [gB] = (.progressUpdated g', storeUpdate 2 g' [gB]) ∧
      g'.elapsed_days = gB.elapsed_days + 1 ∧
      g'.progress = ((gB.elapsed_days + 1 : Int) : ℚ) / (gB.estimated_days : ℚ) * 100 ∧
      (0 < gB.estimated_days → gB.estimated_days ≤ gB.elapsed_days → 100 < g'.progress) :=
  patchIncrement_unchecked 2 [gB] gB rfl (by decide)

/-- C8: Delete on an absent id fails with 404 "Goal not found" and changes
nothing; Delete on an existing id (in a store with no duplicate primary keys)
acknowledges success, removes the row, and no goal with that id appears in
List() of the resulting store. -/
theorem delete_goal_spec (goal_id : Int) (db : List CareerGoal) :
    (findGoal goal_id db = none →
      delete_goal goal_id db =
        (.error { status_code := 404, detail := "Goal not found" }, db)) ∧
    (∀ g, findGoal goal_id db = some g → (db.map CareerGoal.id).Nodup →
      delete_goal goal_id db = (.ok "Goal deleted successfully", storeDelete goal_id db) ∧
      ∀ r ∈ get_goals (storeDelete goal_id db), r.id ≠ goal_id) := by
  constructor
  · intro hfind
    simp only [delete_goal, hfind]
  · intro g hfind hnd
    constructor
    · simp only [delete_goal, hfind]
    · intro r hr
      rcases List.mem_map.mp hr with ⟨x, hx, rfl⟩
      exact storeDelete_id_not_mem goal_id db hnd x hx

/-- C8 witness: on the store `[gA]`, deleting the absent id 99 fails with 404,
and deleting id 1 succeeds and removes it from List(). -/
theorem delete_goal_spec_witness :
    (delete_goal 99 [gA] =
      (.error { status_code := 404, detail := "Goal not found" }, [gA])) ∧
    (delete_goal 1 [gA] = (.ok "Goal deleted successfully", storeDelete 1 [gA]) ∧
      ∀ r ∈ get_goals (storeDelete 1 [gA]), r.id ≠ 1) :=
  ⟨(delete_goal_spec 99 [gA]).1 rfl,
   (delete_goal_spec 1 [gA]).2 gA rfl (by decide)⟩

/-- C9: a strict PUT increment that makes `elapsed_days` reach
`estimated_days` stores exactly 100 as progress — the clamp branch assigns the
literal value. -/
theorem advanceOnce_completion_exact (goal_id : Int) (db : List CareerGoal) (g : CareerGoal)
    (hfind : findGoal goal_id db = some g)
    (heq : g.elapsed_days + 1 = g.estimated_days) :
    ∃ g', (increment_progress goal_id db).1 = .ok g' ∧ g'.progress = 100 ∧
      g'.elapsed_days = g.estimated_days := by
  have hlt : g.elapsed_days < g.estimated_days := by omega
  have hcl : g.estimated_days ≤ g.elapsed_days + 1 := by omega
  refine ⟨{ g with elapsed_days := g.elapsed_days + 1, progress := 100 }, ?_, rfl, heq⟩
  simp only [increment_progress, hfind, if_pos hlt, if_pos hcl]

/-- C9 witness: advancing goal `gD` from 6 of 7 days completes it with
progress exactly 100. -/
theorem advanceOnce_completion_exact_witness :
    ∃ g', (increment_progress 4 [gD]).1 = .ok g' ∧ g'.progress = 100 ∧
      g'.elapsed_days = gD.estimated_days :=
  advanceOnce_completion_exact 4 [gD] gD rfl (by decide)

/-- C10: for a stored goal (so `0 ≤ elapsed_days`) with
`estimated_days ≤ 0`, the guard `elapsed_days < estimated_days` is false, so
the strict PUT increment takes the 400 branch — which contains no division —
and returns the store unchanged. -/
theorem advanceOnce_zero_estimate (goal_id : Int) (db : List CareerGoal) (g : CareerGoal)
    (hfind : findGoal goal_id db = some g)
    (hnn : 0 ≤ g.elapsed_days) (hle : g.estimated_days ≤ 0) :
    increment_progress goal_id db =
      (.error { status_code := 400, detail := "Goal already completed" }, db) :=
  increment_progress_not_lt goal_id db g hfind (by omega)

/-- C10 witness: the strict increment on goal `gC` (`estimated_days = 0`)
fails with 400 and no mutation. -/
theorem advanceOnce_zero_estimate_witness :
    increment_progress 3 [gC] =
      (.error { status_code := 400, detail := "Goal already completed" }, [gC]) :=
  advanceOnce_zero_estimate 3 [gC] gC rfl (by decide) (by decide)
